import Mathlib

/-
Shallow embedding of include/fcl/math/sampling.h (namespace fcl).

The random engine is modelled by its future draw outputs: `uni` is the
stream of values produced by the uniform-real distribution over [0,1)
(uniDist_ applied to generator_), `nrm` the stream produced by the
standard-normal distribution (normalDist_), and `ku`/`kn` are cursors
marking how many draws of each kind have already been consumed.  C++
doubles are modelled as real numbers.  Each member function that draws
becomes a state transformer returning the value and the advanced engine.
-/

noncomputable section

namespace fcl

/-- State of the RNG class: the streams of future distribution outputs
and the number of draws of each kind already consumed. -/
structure RNG where
  uni : ℕ → ℝ
  nrm : ℕ → ℝ
  ku : ℕ
  kn : ℕ

/-- Advance the uniform-draw cursor by m (helper, not a source function). -/
def RNG.skip (g : RNG) (m : ℕ) : RNG :=
  ⟨g.uni, g.nrm, g.ku + m, g.kn⟩

/-- RNG::uniform01: return uniDist_(generator_), advancing the generator. -/
def RNG.uniform01 (g : RNG) : ℝ × RNG :=
  (g.uni g.ku, g.skip 1)

/-- RNG::uniformReal: (upper_bound - lower_bound) * uniDist_(generator_) + lower_bound.
The source asserts lower_bound <= upper_bound; the assert does not change the value. -/
def RNG.uniformReal (g : RNG) (lower_bound upper_bound : ℝ) : ℝ × RNG :=
  let p := g.uniform01
  ((upper_bound - lower_bound) * p.1 + lower_bound, p.2)

/-- RNG::uniformInt: r = (int)floor(uniformReal(lo, hi + 1)); return r > hi ? hi : r. -/
def RNG.uniformInt (g : RNG) (lower_bound upper_bound : ℤ) : ℤ × RNG :=
  let p := g.uniformReal (lower_bound : ℝ) ((upper_bound : ℝ) + 1)
  let r := Int.floor p.1
  ((if r > upper_bound then upper_bound else r), p.2)

/-- RNG::gaussian01: return normalDist_(generator_). -/
def RNG.gaussian01 (g : RNG) : ℝ × RNG :=
  (g.nrm g.kn, ⟨g.uni, g.nrm, g.ku, g.kn + 1⟩)

/-- Modelled from the spec: the body of RNG::quaternion is not in the fragment
(only the declaration is).  The spec gives the subgroup-algorithm construction
from three independent uniform [0,1) draws u1, u2, u3, output order (x,y,z,w):
x = sqrt(1-u1)*sin(2*pi*u2), y = sqrt(1-u1)*cos(2*pi*u2),
z = sqrt(u1)*sin(2*pi*u3), w = sqrt(u1)*cos(2*pi*u3). -/
def RNG.quaternion (g : RNG) : (ℝ × ℝ × ℝ × ℝ) × RNG :=
  let p1 := g.uniform01
  let p2 := p1.2.uniform01
  let p3 := p2.2.uniform01
  ((Real.sqrt (1 - p1.1) * Real.sin (2 * Real.pi * p2.1),
    Real.sqrt (1 - p1.1) * Real.cos (2 * Real.pi * p2.1),
    Real.sqrt p1.1 * Real.sin (2 * Real.pi * p3.1),
    Real.sqrt p1.1 * Real.cos (2 * Real.pi * p3.1)), p3.2)

/-- Modelled from the spec: the body of RNG::disk is not in the fragment.
The spec: draw angle theta = uniformReal(0, 2*pi) and radius
rho = sqrt(uniformReal(r_min^2, r_max^2)); return (rho*cos(theta), rho*sin(theta)). -/
def RNG.disk (g : RNG) (r_min r_max : ℝ) : (ℝ × ℝ) × RNG :=
  let pt := g.uniformReal 0 (2 * Real.pi)
  let pr := pt.2.uniformReal (r_min ^ 2) (r_max ^ 2)
  let rho := Real.sqrt pr.1
  ((rho * Real.cos pt.1, rho * Real.sin pt.1), pr.2)

/-- Modelled from the spec: the body of RNG::ball is not in the fragment.
The spec: draw a direction uniformly on the unit sphere via a normalized
Gaussian triple, and radius rho = cuberoot(uniformReal(r_min^3, r_max^3));
scale the direction by rho. -/
def RNG.ball (g : RNG) (r_min r_max : ℝ) : (ℝ × ℝ × ℝ) × RNG :=
  let p1 := g.gaussian01
  let p2 := p1.2.gaussian01
  let p3 := p2.2.gaussian01
  let pr := p3.2.uniformReal (r_min ^ 3) (r_max ^ 3)
  let n := Real.sqrt (p1.1 ^ 2 + p2.1 ^ 2 + p3.1 ^ 2)
  let rho := pr.1 ^ ((1 : ℝ) / 3)
  ((rho * p1.1 / n, rho * p2.1 / n, rho * p3.1 / n), pr.2)

/-
Samplers.  Each C++ sampler inherits SamplerBase, which owns one mutable
RNG; here each sampler structure carries its RNG, and sample() returns
the configuration vector together with the updated sampler.  VectorNd is
modelled as Fin N -> Real.
-/

/-- SamplerR\<N\> state: the owned engine and the two bound vectors. -/
structure SamplerR (N : ℕ) where
  rng : RNG
  lower_bound : Fin N → ℝ
  upper_bound : Fin N → ℝ

/-- SamplerR::setBound: overwrite both bound vectors. -/
def SamplerR.setBound {N : ℕ} (s : SamplerR N) (lower_bound_ upper_bound_ : Fin N → ℝ) :
    SamplerR N :=
  ⟨s.rng, lower_bound_, upper_bound_⟩

/-- The loop body of SamplerR::sample: for i = 0, 1, ..., n-1 in order,
draw uniformReal(lb i, ub i) into coordinate i, threading the engine. -/
def RNG.drawSeq : (n : ℕ) → (Fin n → ℝ) → (Fin n → ℝ) → RNG → ((Fin n → ℝ) × RNG)
  | 0, _, _, g => (fun i => i.elim0, g)
  | n + 1, lb, ub, g =>
    let p := g.uniformReal (lb 0) (ub 0)
    let rest := RNG.drawSeq n (fun i => lb i.succ) (fun i => ub i.succ) p.2
    (Fin.cons p.1 rest.1, rest.2)

/-- SamplerR::sample: q[i] = rng.uniformReal(lower_bound[i], upper_bound[i])
for i = 0..N-1 in index order. -/
def SamplerR.sample {N : ℕ} (s : SamplerR N) : (Fin N → ℝ) × SamplerR N :=
  let r := RNG.drawSeq N s.lower_bound s.upper_bound s.rng
  (r.1, ⟨r.2, s.lower_bound, s.upper_bound⟩)

/-- SamplerSE2 state (box form): engine and the two 2-element bound vectors. -/
structure SamplerSE2 where
  rng : RNG
  lower_bound : Fin 2 → ℝ
  upper_bound : Fin 2 → ℝ

/-- SamplerSE2::sample.  The source computes
q[0] = uniformReal(lower_bound[0], lower_bound[1]),
q[1] = uniformReal(lower_bound[1], lower_bound[2]),
q[2] = uniformReal(-pi, pi).
lower_bound[2] reads one past the declared 2-element vector; the value that
read yields is not determined by the declared fields, so it is passed in as
the parameter oob. -/
def SamplerSE2.sample (s : SamplerSE2) (oob : ℝ) : (Fin 3 → ℝ) × SamplerSE2 :=
  let p0 := s.rng.uniformReal (s.lower_bound 0) (s.lower_bound 1)
  let p1 := p0.2.uniformReal (s.lower_bound 1) oob
  let p2 := p1.2.uniformReal (-Real.pi) Real.pi
  (![p0.1, p1.1, p2.1], ⟨p2.2, s.lower_bound, s.upper_bound⟩)

/-- SamplerSE2_disk state: engine, centre c, reference centre cref, radii. -/
structure SamplerSE2_disk where
  rng : RNG
  c : Fin 2 → ℝ
  cref : Fin 2 → ℝ
  r_min : ℝ
  r_max : ℝ

/-- SamplerSE2_disk::setBound: overwrite c, cref, r_min, r_max. -/
def SamplerSE2_disk.setBound (s : SamplerSE2_disk) (cx cy r1 r2 crefx crefy : ℝ) :
    SamplerSE2_disk :=
  ⟨s.rng, ![cx, cy], ![crefx, crefy], r1, r2⟩

/-- SamplerSE2_disk::sample:
(x, y) = rng.disk(r_min, r_max); q[0] = x + c[0] - cref[0];
q[1] = y + c[1] - cref[1]; q[2] = uniformReal(-pi, pi). -/
def SamplerSE2_disk.sample (s : SamplerSE2_disk) : (Fin 3 → ℝ) × SamplerSE2_disk :=
  let pd := s.rng.disk s.r_min s.r_max
  let ph := pd.2.uniformReal (-Real.pi) Real.pi
  (![pd.1.1 + s.c 0 - s.cref 0, pd.1.2 + s.c 1 - s.cref 1, ph.1],
   ⟨ph.2, s.c, s.cref, s.r_min, s.r_max⟩)

/-- SamplerSE3Euler state: engine and the two 3-element bound vectors. -/
structure SamplerSE3Euler where
  rng : RNG
  lower_bound : Fin 3 → ℝ
  upper_bound : Fin 3 → ℝ

/-- SamplerSE3Euler::sample: three box draws, then a quaternion draw converted
to Euler angles.  The conversion (Eigen toRotationMatrix / eulerAngles(0,1,2))
is an out-of-scope external collaborator per the spec, so it is passed in as
the pure function toEuler. -/
def SamplerSE3Euler.sample (s : SamplerSE3Euler)
    (toEuler : ℝ × ℝ × ℝ × ℝ → ℝ × ℝ × ℝ) : (Fin 6 → ℝ) × SamplerSE3Euler :=
  let p0 := s.rng.uniformReal (s.lower_bound 0) (s.upper_bound 0)
  let p1 := p0.2.uniformReal (s.lower_bound 1) (s.upper_bound 1)
  let p2 := p1.2.uniformReal (s.lower_bound 2) (s.upper_bound 2)
  let pq := p2.2.quaternion
  let a := toEuler pq.1
  (![p0.1, p1.1, p2.1, a.1, a.2.1, a.2.2], ⟨pq.2, s.lower_bound, s.upper_bound⟩)

/-- SamplerSE3Quat state: engine and the two 3-element bound vectors. -/
structure SamplerSE3Quat where
  rng : RNG
  lower_bound : Fin 3 → ℝ
  upper_bound : Fin 3 → ℝ

/-- SamplerSE3Quat::sample: q[0..2] are box draws
uniformReal(lower_bound[i], upper_bound[i]); q[3..6] are the four components
(x, y, z, w) of one rng.quaternion draw, in order. -/
def SamplerSE3Quat.sample (s : SamplerSE3Quat) : (Fin 7 → ℝ) × SamplerSE3Quat :=
  let p0 := s.rng.uniformReal (s.lower_bound 0) (s.upper_bound 0)
  let p1 := p0.2.uniformReal (s.lower_bound 1) (s.upper_bound 1)
  let p2 := p1.2.uniformReal (s.lower_bound 2) (s.upper_bound 2)
  let pq := p2.2.quaternion
  (![p0.1, p1.1, p2.1, pq.1.1, pq.1.2.1, pq.1.2.2.1, pq.1.2.2.2],
   ⟨pq.2, s.lower_bound, s.upper_bound⟩)

/-- SamplerSE3Euler_ball state: engine and radius r. -/
structure SamplerSE3Euler_ball where
  rng : RNG
  r : ℝ

/-- SamplerSE3Euler_ball::sample: position from rng.ball(0, r), orientation from
a quaternion draw converted to Euler angles by the external conversion toEuler. -/
def SamplerSE3Euler_ball.sample (s : SamplerSE3Euler_ball)
    (toEuler : ℝ × ℝ × ℝ × ℝ → ℝ × ℝ × ℝ) : (Fin 6 → ℝ) × SamplerSE3Euler_ball :=
  let pb := s.rng.ball 0 s.r
  let pq := pb.2.quaternion
  let a := toEuler pq.1
  (![pb.1.1, pb.1.2.1, pb.1.2.2, a.1, a.2.1, a.2.2], ⟨pq.2, s.r⟩)

/-- SamplerSE3Quat_ball state: engine and radius r. -/
structure SamplerSE3Quat_ball where
  rng : RNG
  r : ℝ

/-- SamplerSE3Quat_ball::sample: position from rng.ball(0, r), then the four
components of one quaternion draw. -/
def SamplerSE3Quat_ball.sample (s : SamplerSE3Quat_ball) :
    (Fin 7 → ℝ) × SamplerSE3Quat_ball :=
  let pb := s.rng.ball 0 s.r
  let pq := pb.2.quaternion
  (![pb.1.1, pb.1.2.1, pb.1.2.2, pq.1.1, pq.1.2.1, pq.1.2.2.1, pq.1.2.2.2],
   ⟨pq.2, s.r⟩)

/-- An engine whose uniform and normal streams are constantly 0 (a legal
uniform stream: 0 lies in [0,1)). -/
def zeroRNG : RNG :=
  ⟨fun _ => 0, fun _ => 0, 0, 0⟩

/-- An engine whose uniform stream is constantly 1/2. -/
def halfRNG : RNG :=
  ⟨fun _ => 1 / 2, fun _ => 0, 0, 0⟩

/-- An engine whose uniform stream is constantly 3/4. -/
def threeQuarterRNG : RNG :=
  ⟨fun _ => 3 / 4, fun _ => 0, 0, 0⟩

/-- A 1-dimensional box sampler with degenerate bounds lower = upper = 0. -/
def samplerR1_degenerate : SamplerR 1 :=
  ⟨zeroRNG, fun _ => 0, fun _ => 0⟩

/-- A 1-dimensional box sampler over [0, 1]. -/
def samplerR1_unit : SamplerR 1 :=
  ⟨zeroRNG, fun _ => 0, fun _ => 1⟩

/-- An SE2 box sampler with lower = (0, 2), upper = (1, 3) and the 3/4 stream. -/
def se2_box_bug_instance : SamplerSE2 :=
  ⟨threeQuarterRNG, ![0, 2], ![1, 3]⟩

/-- An SE3 quaternion box sampler over the unit box with the all-zero stream. -/
def se3quat_unit : SamplerSE3Quat :=
  ⟨zeroRNG, fun _ => 0, fun _ => 1⟩

/-- An SE2 disk sampler with c = cref = (0, 0), radii [0, 1], all-zero stream. -/
def se2disk_unit : SamplerSE2_disk :=
  ⟨zeroRNG, fun _ => 0, fun _ => 0, 0, 1⟩

/-
Helper lemmas shared by the claim theorems.
-/

theorem RNG.skip_zero (g : RNG) : g.skip 0 = g := rfl

theorem RNG.skip_skip (g : RNG) (a b : ℕ) : (g.skip a).skip b = g.skip (a + b) := by
  simp [RNG.skip, Nat.add_assoc]

theorem RNG.uniformReal_fst (g : RNG) (lo hi : ℝ) :
    (g.uniformReal lo hi).1 = (hi - lo) * g.uni g.ku + lo := rfl

theorem RNG.uniformReal_snd (g : RNG) (lo hi : ℝ) :
    (g.uniformReal lo hi).2 = g.skip 1 := rfl

theorem RNG.drawSeq_fst : ∀ (n : ℕ) (lb ub : Fin n → ℝ) (g : RNG) (i : Fin n),
    (RNG.drawSeq n lb ub g).1 i = ((g.skip i).uniformReal (lb i) (ub i)).1 := by
  intro n
  induction n with
  | zero => intro lb ub g i; exact i.elim0
  | succ n ih =>
    intro lb ub g i
    cases i using Fin.cases with
    | zero =>
      show (RNG.drawSeq (n + 1) lb ub g).1 0 = ((g.skip 0).uniformReal (lb 0) (ub 0)).1
      rw [RNG.skip_zero]
      simp [RNG.drawSeq]
    | succ j =>
      show (RNG.drawSeq (n + 1) lb ub g).1 j.succ = _
      have hstep :
          (RNG.drawSeq (n + 1) lb ub g).1 j.succ =
            (RNG.drawSeq n (fun i => lb i.succ) (fun i => ub i.succ)
              (g.uniformReal (lb 0) (ub 0)).2).1 j := by
        simp [RNG.drawSeq]
      rw [hstep, ih, RNG.uniformReal_snd, RNG.skip_skip]
      have hj : (1 + (j : ℕ)) = ((j.succ : Fin (n + 1)) : ℕ) := by
        simp [Fin.val_succ, Nat.add_comm]
      rw [hj]

/-
Claim theorems.
-/

/-- C3: for integers lo <= hi (and a uniform01 output in [0,1), as
uniform_real_distribution guarantees), RNG::uniformInt returns an integer in
the inclusive range [lo, hi], and it is computed as
floor(uniformReal(lo, hi+1)) clamped to hi whenever that floor exceeds hi. -/
theorem uniformInt_in_range (g : RNG) (lo hi : ℤ) (hlh : lo ≤ hi)
    (hu : 0 ≤ g.uni g.ku ∧ g.uni g.ku < 1) :
    lo ≤ (g.uniformInt lo hi).1 ∧ (g.uniformInt lo hi).1 ≤ hi ∧
      (g.uniformInt lo hi).1 =
        (if Int.floor ((g.uniformReal (lo : ℝ) ((hi : ℝ) + 1)).1) > hi then hi
         else Int.floor ((g.uniformReal (lo : ℝ) ((hi : ℝ) + 1)).1)) := by
  have hlo : (lo : ℝ) ≤ (hi : ℝ) := by exact_mod_cast hlh
  have hval : (g.uniformReal (lo : ℝ) ((hi : ℝ) + 1)).1 =
      ((hi : ℝ) + 1 - lo) * g.uni g.ku + lo := rfl
  have h1 : (lo : ℝ) ≤ (g.uniformReal (lo : ℝ) ((hi : ℝ) + 1)).1 := by
    rw [hval]; nlinarith [hu.1]
  have h2 : (g.uniformReal (lo : ℝ) ((hi : ℝ) + 1)).1 < (hi : ℝ) + 1 := by
    rw [hval]; nlinarith [hu.2, hu.1]
  have hf1 : lo ≤ Int.floor ((g.uniformReal (lo : ℝ) ((hi : ℝ) + 1)).1) :=
    Int.le_floor.mpr h1
  have hf2 : Int.floor ((g.uniformReal (lo : ℝ) ((hi : ℝ) + 1)).1) < hi + 1 :=
    Int.floor_lt.mpr (by push_cast; linarith)
  have hnot : ¬ (Int.floor ((g.uniformReal (lo : ℝ) ((hi : ℝ) + 1)).1) > hi) := by omega
  have hres : (g.uniformInt lo hi).1 =
      Int.floor ((g.uniformReal (lo : ℝ) ((hi : ℝ) + 1)).1) := by
    simp [RNG.uniformInt, hnot]
  exact ⟨by rw [hres]; exact hf1, by rw [hres]; omega, rfl⟩

/-- C3 witness: at lo = 0, hi = 2 with the all-zero uniform stream. -/
theorem uniformInt_in_range_witness :
    (0 : ℤ) ≤ (zeroRNG.uniformInt 0 2).1 ∧ (zeroRNG.uniformInt 0 2).1 ≤ 2 ∧
      (zeroRNG.uniformInt 0 2).1 =
        (if Int.floor ((zeroRNG.uniformReal ((0 : ℤ) : ℝ) (((2 : ℤ) : ℝ) + 1)).1) > 2 then 2
         else Int.floor ((zeroRNG.uniformReal ((0 : ℤ) : ℝ) (((2 : ℤ) : ℝ) + 1)).1)) :=
  uniformInt_in_range zeroRNG 0 2 (by norm_num) (by constructor <;> norm_num [zeroRNG])

/-- C4 counterexample: at lo = hi = 0 (allowed by the asserted precondition
lo <= hi, and with a legal uniform01 output), uniformReal returns 0, which
does not lie in the half-open interval [0, 0): the claimed membership in
[lo, hi) fails for every draw when lo = hi. -/
theorem uniformReal_halfopen_fails_at_equal_bounds :
    (0 : ℝ) ≤ 0 ∧ 0 ≤ zeroRNG.uni zeroRNG.ku ∧ zeroRNG.uni zeroRNG.ku < 1 ∧
      (zeroRNG.uniformReal 0 0).1 = 0 ∧ ¬ ((zeroRNG.uniformReal 0 0).1 < 0) := by
  refine ⟨le_refl 0, le_refl 0, by norm_num [zeroRNG], ?_, ?_⟩
  · norm_num [RNG.uniformReal, RNG.uniform01, zeroRNG]
  · norm_num [RNG.uniformReal, RNG.uniform01, zeroRNG]

/-- C4 (amended): for lo <= hi and a uniform01 output u in [0,1),
uniformReal(lo, hi) returns lo + (hi - lo) * u; the result is always >= lo,
and it is < hi whenever lo < hi (when lo = hi the result equals lo, so the
half-open membership in [lo, hi) holds exactly for nonempty intervals). -/
theorem uniformReal_spec (g : RNG) (lo hi : ℝ) (hlh : lo ≤ hi)
    (hu : 0 ≤ g.uni g.ku ∧ g.uni g.ku < 1) :
    (g.uniformReal lo hi).1 = lo + (hi - lo) * g.uni g.ku ∧
      lo ≤ (g.uniformReal lo hi).1 ∧
      (lo < hi → (g.uniformReal lo hi).1 < hi) := by
  have hv : (g.uniformReal lo hi).1 = (hi - lo) * g.uni g.ku + lo := rfl
  refine ⟨by rw [hv]; ring, ?_, ?_⟩
  · rw [hv]; nlinarith [hu.1]
  · intro h; rw [hv]; nlinarith [hu.2]

/-- C4 witness: at lo = 0, hi = 1 with the all-zero uniform stream. -/
theorem uniformReal_spec_witness :
    (zeroRNG.uniformReal 0 1).1 = 0 + (1 - 0) * zeroRNG.uni zeroRNG.ku ∧
      0 ≤ (zeroRNG.uniformReal 0 1).1 ∧
      ((0 : ℝ) < 1 → (zeroRNG.uniformReal 0 1).1 < 1) :=
  uniformReal_spec zeroRNG 0 1 (by norm_num) (by constructor <;> norm_num [zeroRNG])

/-- C5 counterexample: a 1-dimensional box sampler with lower = upper = 0
(component-wise lower <= upper holds, and the uniform stream is legal)
produces component 0 equal to 0, which does not lie in the half-open
interval [0, 0): membership in [lower[i], upper[i]) fails at equal bounds. -/
theorem samplerR_halfopen_fails_at_equal_bounds :
    samplerR1_degenerate.lower_bound 0 ≤ samplerR1_degenerate.upper_bound 0 ∧
      0 ≤ samplerR1_degenerate.rng.uni samplerR1_degenerate.rng.ku ∧
      samplerR1_degenerate.rng.uni samplerR1_degenerate.rng.ku < 1 ∧
      (samplerR1_degenerate.sample).1 0 = 0 ∧
      ¬ ((samplerR1_degenerate.sample).1 0 < samplerR1_degenerate.upper_bound 0) := by
  refine ⟨le_refl 0, le_refl 0, by norm_num [samplerR1_degenerate, zeroRNG], ?_, ?_⟩
  · simp [SamplerR.sample, RNG.drawSeq, RNG.uniformReal, RNG.uniform01,
      samplerR1_degenerate, zeroRNG]
  · simp [SamplerR.sample, RNG.drawSeq, RNG.uniformReal, RNG.uniform01,
      samplerR1_degenerate, zeroRNG]

/-- C5 (amended): SamplerR::sample draws coordinate i via
uniformReal(lower_bound[i], upper_bound[i]) in index order (coordinate i uses
the engine advanced by exactly i draws); consequently, with component-wise
lower[i] <= upper[i] and legal uniform01 outputs, every component lies in the
closed interval [lower[i], upper[i]], and strictly below upper[i] whenever
lower[i] < upper[i]. -/
theorem samplerR_sample_spec {N : ℕ} (s : SamplerR N)
    (hu : ∀ k, 0 ≤ s.rng.uni k ∧ s.rng.uni k < 1) :
    (∀ i : Fin N, (s.sample).1 i =
        ((s.rng.skip i).uniformReal (s.lower_bound i) (s.upper_bound i)).1) ∧
    (∀ i : Fin N, s.lower_bound i ≤ s.upper_bound i →
        s.lower_bound i ≤ (s.sample).1 i ∧ (s.sample).1 i ≤ s.upper_bound i ∧
        (s.lower_bound i < s.upper_bound i → (s.sample).1 i < s.upper_bound i)) := by
  have hform : ∀ i : Fin N, (s.sample).1 i =
      ((s.rng.skip i).uniformReal (s.lower_bound i) (s.upper_bound i)).1 := by
    intro i
    exact RNG.drawSeq_fst N s.lower_bound s.upper_bound s.rng i
  refine ⟨hform, ?_⟩
  intro i hle
  rw [hform i, RNG.uniformReal_fst]
  simp only [RNG.skip]
  obtain ⟨h0, h1⟩ := hu (s.rng.ku + (i : ℕ))
  refine ⟨by nlinarith, by nlinarith, fun hlt => by nlinarith⟩

/-- C5 witness: the 1-dimensional unit-box sampler with the all-zero stream,
at component 0. -/
theorem samplerR_sample_spec_witness :
    (samplerR1_unit.sample).1 0 =
      ((samplerR1_unit.rng.skip ((0 : Fin 1) : ℕ)).uniformReal
        (samplerR1_unit.lower_bound 0) (samplerR1_unit.upper_bound 0)).1 ∧
      samplerR1_unit.lower_bound 0 ≤ (samplerR1_unit.sample).1 0 ∧
      (samplerR1_unit.sample).1 0 ≤ samplerR1_unit.upper_bound 0 := by
  have h := samplerR_sample_spec samplerR1_unit
    (by intro k; constructor <;> norm_num [samplerR1_unit, zeroRNG])
  exact ⟨h.1 0, (h.2 0 (by norm_num [samplerR1_unit])).1,
    (h.2 0 (by norm_num [samplerR1_unit])).2.1⟩

/-- C1 (code-bug evaluation): with lower_bound = (0, 2), upper_bound = (1, 3)
(a legal 2D box) and a legal uniform stream constantly 3/4, the first
component of SamplerSE2::sample equals 3/2, which is outside the claimed
interval [lower_bound[0], upper_bound[0]) = [0, 1): the source draws it via
uniformReal(lower_bound[0], lower_bound[1]), not
uniformReal(lower_bound[0], upper_bound[0]). -/
theorem se2_box_sample_escapes_declared_box :
    0 ≤ se2_box_bug_instance.rng.uni se2_box_bug_instance.rng.ku ∧
      se2_box_bug_instance.rng.uni se2_box_bug_instance.rng.ku < 1 ∧
      (se2_box_bug_instance.sample 0).1 0 = 3 / 2 ∧
      se2_box_bug_instance.upper_bound 0 = 1 ∧
      ¬ ((se2_box_bug_instance.sample 0).1 0 < se2_box_bug_instance.upper_bound 0) := by
  refine ⟨by norm_num [se2_box_bug_instance, threeQuarterRNG],
    by norm_num [se2_box_bug_instance, threeQuarterRNG], ?_, ?_, ?_⟩
  · simp [SamplerSE2.sample, RNG.uniformReal, RNG.uniform01,
      se2_box_bug_instance, threeQuarterRNG]
    norm_num
  · simp [se2_box_bug_instance]
  · simp [SamplerSE2.sample, RNG.uniformReal, RNG.uniform01,
      se2_box_bug_instance, threeQuarterRNG]
    norm_num

/-- C2: in SamplerSE2::sample the upper argument of the x-coordinate draw is
lower_bound[1] (for every sampler state the first output component equals
(lower_bound[1] - lower_bound[0]) * u + lower_bound[0]), and the sample
output depends on the value read one past the declared 2-element bound
vector (two different values at that location give different outputs), i.e.
not every bound-vector access is within the declared range. -/
theorem se2_sample_index_misuse :
    (∀ (s : SamplerSE2) (oob : ℝ),
        (s.sample oob).1 0 =
          (s.lower_bound 1 - s.lower_bound 0) * s.rng.uni s.rng.ku + s.lower_bound 0) ∧
    (∃ (s : SamplerSE2) (o1 o2 : ℝ), s.sample o1 ≠ s.sample o2) := by
  constructor
  · intro s oob
    simp [SamplerSE2.sample, RNG.uniformReal, RNG.uniform01]
  · refine ⟨⟨halfRNG, ![0, 0], ![1, 1]⟩, 0, 2, ?_⟩
    intro h
    have h1 := congrArg (fun p => p.1 1) h
    simp [SamplerSE2.sample, RNG.uniformReal, RNG.uniform01, RNG.skip, halfRNG] at h1

/-- C6: for an SE3 quaternion box sampler with valid (nonempty) bounds and
legal uniform01 outputs, the first three components of sample() lie in the
box [lower_bound[i], upper_bound[i]), the last four components equal, in
order, the (x, y, z, w) components of the quaternion drawn by the engine
(advanced past the three position draws), and they form a unit quaternion:
|x^2 + y^2 + z^2 + w^2 - 1| < 1e-9 (here the norm is exactly 1). -/
theorem se3quat_sample_spec (s : SamplerSE3Quat)
    (hb : ∀ i : Fin 3, s.lower_bound i < s.upper_bound i)
    (hu : ∀ k, 0 ≤ s.rng.uni k ∧ s.rng.uni k < 1) :
    (s.lower_bound 0 ≤ (s.sample).1 0 ∧ (s.sample).1 0 < s.upper_bound 0) ∧
      (s.lower_bound 1 ≤ (s.sample).1 1 ∧ (s.sample).1 1 < s.upper_bound 1) ∧
      (s.lower_bound 2 ≤ (s.sample).1 2 ∧ (s.sample).1 2 < s.upper_bound 2) ∧
      ((s.sample).1 3, (s.sample).1 4, (s.sample).1 5, (s.sample).1 6) =
        ((s.rng.skip 3).quaternion).1 ∧
      |(s.sample).1 3 ^ 2 + (s.sample).1 4 ^ 2 + (s.sample).1 5 ^ 2 +
        (s.sample).1 6 ^ 2 - 1| < 1 / 10 ^ 9 := by
  have e0 : (s.sample).1 0 =
      (s.upper_bound 0 - s.lower_bound 0) * s.rng.uni s.rng.ku + s.lower_bound 0 := rfl
  have e1 : (s.sample).1 1 =
      (s.upper_bound 1 - s.lower_bound 1) * s.rng.uni (s.rng.ku + 1) + s.lower_bound 1 := rfl
  have e2 : (s.sample).1 2 =
      (s.upper_bound 2 - s.lower_bound 2) * s.rng.uni (s.rng.ku + 2) + s.lower_bound 2 := rfl
  have e3 : (s.sample).1 3 =
      Real.sqrt (1 - s.rng.uni (s.rng.ku + 3)) *
        Real.sin (2 * Real.pi * s.rng.uni (s.rng.ku + 4)) := rfl
  have e4 : (s.sample).1 4 =
      Real.sqrt (1 - s.rng.uni (s.rng.ku + 3)) *
        Real.cos (2 * Real.pi * s.rng.uni (s.rng.ku + 4)) := rfl
  have e5 : (s.sample).1 5 =
      Real.sqrt (s.rng.uni (s.rng.ku + 3)) *
        Real.sin (2 * Real.pi * s.rng.uni (s.rng.ku + 5)) := rfl
  have e6 : (s.sample).1 6 =
      Real.sqrt (s.rng.uni (s.rng.ku + 3)) *
        Real.cos (2 * Real.pi * s.rng.uni (s.rng.ku + 5)) := rfl
  have hnorm : (s.sample).1 3 ^ 2 + (s.sample).1 4 ^ 2 + (s.sample).1 5 ^ 2 +
      (s.sample).1 6 ^ 2 = 1 := by
    have t1 := Real.sin_sq_add_cos_sq (2 * Real.pi * s.rng.uni (s.rng.ku + 4))
    have t2 := Real.sin_sq_add_cos_sq (2 * Real.pi * s.rng.uni (s.rng.ku + 5))
    have r1 : Real.sqrt (1 - s.rng.uni (s.rng.ku + 3)) ^ 2 =
        1 - s.rng.uni (s.rng.ku + 3) :=
      Real.sq_sqrt (by linarith [(hu (s.rng.ku + 3)).2])
    have r2 : Real.sqrt (s.rng.uni (s.rng.ku + 3)) ^ 2 = s.rng.uni (s.rng.ku + 3) :=
      Real.sq_sqrt (hu (s.rng.ku + 3)).1
    rw [e3, e4, e5, e6]
    nlinarith [t1, t2, r1, r2]
  have hmem : ∀ (lo hi u : ℝ), lo < hi → 0 ≤ u → u < 1 →
      lo ≤ (hi - lo) * u + lo ∧ (hi - lo) * u + lo < hi := by
    intro lo hi u hlt h0 h1
    constructor <;> nlinarith
  refine ⟨?_, ?_, ?_, rfl, ?_⟩
  · rw [e0]
    exact hmem _ _ _ (hb 0) (hu s.rng.ku).1 (hu s.rng.ku).2
  · rw [e1]
    exact hmem _ _ _ (hb 1) (hu (s.rng.ku + 1)).1 (hu (s.rng.ku + 1)).2
  · rw [e2]
    exact hmem _ _ _ (hb 2) (hu (s.rng.ku + 2)).1 (hu (s.rng.ku + 2)).2
  · rw [hnorm]
    norm_num

/-- C6 witness: the unit-box SE3 quaternion sampler with the all-zero stream. -/
theorem se3quat_sample_spec_witness :
    (se3quat_unit.lower_bound 0 ≤ (se3quat_unit.sample).1 0 ∧
        (se3quat_unit.sample).1 0 < se3quat_unit.upper_bound 0) ∧
      (se3quat_unit.lower_bound 1 ≤ (se3quat_unit.sample).1 1 ∧
        (se3quat_unit.sample).1 1 < se3quat_unit.upper_bound 1) ∧
      (se3quat_unit.lower_bound 2 ≤ (se3quat_unit.sample).1 2 ∧
        (se3quat_unit.sample).1 2 < se3quat_unit.upper_bound 2) ∧
      ((se3quat_unit.sample).1 3, (se3quat_unit.sample).1 4, (se3quat_unit.sample).1 5,
          (se3quat_unit.sample).1 6) =
        ((se3quat_unit.rng.skip 3).quaternion).1 ∧
      |(se3quat_unit.sample).1 3 ^ 2 + (se3quat_unit.sample).1 4 ^ 2 +
          (se3quat_unit.sample).1 5 ^ 2 + (se3quat_unit.sample).1 6 ^ 2 - 1| < 1 / 10 ^ 9 :=
  se3quat_sample_spec se3quat_unit
    (by intro i; norm_num [se3quat_unit])
    (by intro k; constructor <;> norm_num [se3quat_unit, zeroRNG])

/-- C7: SamplerSE2_disk::sample returns a 3-vector whose first two components
are the disk-sampled point translated by c - cref component-wise, and whose
third component lies in [-pi, pi) (drawn via uniformReal(-pi, pi)). -/
theorem se2disk_sample_spec (s : SamplerSE2_disk)
    (hu : ∀ k, 0 ≤ s.rng.uni k ∧ s.rng.uni k < 1) :
    (s.sample).1 0 = (s.rng.disk s.r_min s.r_max).1.1 + s.c 0 - s.cref 0 ∧
      (s.sample).1 1 = (s.rng.disk s.r_min s.r_max).1.2 + s.c 1 - s.cref 1 ∧
      -Real.pi ≤ (s.sample).1 2 ∧ (s.sample).1 2 < Real.pi := by
  have e2 : (s.sample).1 2 =
      (Real.pi - -Real.pi) * s.rng.uni (s.rng.ku + 2) + -Real.pi := rfl
  obtain ⟨h0, h1⟩ := hu (s.rng.ku + 2)
  refine ⟨rfl, rfl, ?_, ?_⟩
  · rw [e2]; nlinarith [Real.pi_pos]
  · rw [e2]; nlinarith [Real.pi_pos]

/-- C7 witness: the disk sampler with c = cref = 0, radii [0, 1], zero stream. -/
theorem se2disk_sample_spec_witness :
    (se2disk_unit.sample).1 0 =
        (se2disk_unit.rng.disk se2disk_unit.r_min se2disk_unit.r_max).1.1 +
          se2disk_unit.c 0 - se2disk_unit.cref 0 ∧
      (se2disk_unit.sample).1 1 =
        (se2disk_unit.rng.disk se2disk_unit.r_min se2disk_unit.r_max).1.2 +
          se2disk_unit.c 1 - se2disk_unit.cref 1 ∧
      -Real.pi ≤ (se2disk_unit.sample).1 2 ∧ (se2disk_unit.sample).1 2 < Real.pi :=
  se2disk_sample_spec se2disk_unit
    (by intro k; constructor <;> norm_num [se2disk_unit, zeroRNG])

/-- C8: for every sampler in the family, sample() leaves the sampler's bound
configuration unchanged (lower_bound/upper_bound, or c/cref/r_min/r_max, or
r); the only field of the sampler state that sample() updates is the owned
engine rng. -/
theorem sample_mutates_only_rng :
    (∀ (N : ℕ) (s : SamplerR N),
        (s.sample).2.lower_bound = s.lower_bound ∧
          (s.sample).2.upper_bound = s.upper_bound) ∧
      (∀ (s : SamplerSE2) (oob : ℝ),
        (s.sample oob).2.lower_bound = s.lower_bound ∧
          (s.sample oob).2.upper_bound = s.upper_bound) ∧
      (∀ s : SamplerSE2_disk,
        (s.sample).2.c = s.c ∧ (s.sample).2.cref = s.cref ∧
          (s.sample).2.r_min = s.r_min ∧ (s.sample).2.r_max = s.r_max) ∧
      (∀ (s : SamplerSE3Euler) (te : ℝ × ℝ × ℝ × ℝ → ℝ × ℝ × ℝ),
        (s.sample te).2.lower_bound = s.lower_bound ∧
          (s.sample te).2.upper_bound = s.upper_bound) ∧
      (∀ s : SamplerSE3Quat,
        (s.sample).2.lower_bound = s.lower_bound ∧
          (s.sample).2.upper_bound = s.upper_bound) ∧
      (∀ (s : SamplerSE3Euler_ball) (te : ℝ × ℝ × ℝ × ℝ → ℝ × ℝ × ℝ),
        (s.sample te).2.r = s.r) ∧
      (∀ s : SamplerSE3Quat_ball, (s.sample).2.r = s.r) :=
  ⟨fun _ _ => ⟨rfl, rfl⟩, fun _ _ => ⟨rfl, rfl⟩, fun _ => ⟨rfl, rfl, rfl, rfl⟩,
   fun _ _ => ⟨rfl, rfl⟩, fun _ => ⟨rfl, rfl⟩, fun _ _ => rfl, fun _ => rfl⟩

/-- C9: a box sampler constructed directly with bounds (lower, upper) and a
default-constructed box sampler (whose indeterminate initial bounds are
junk_lb, junk_ub) rebound via setBound(lower, upper) are observationally
equivalent when their engines are in the same internal state: the first
sample() call returns the same configuration vector, and the post-call
sampler states are also equal. -/
theorem construct_vs_setBound_equiv (N : ℕ) (g : RNG) (lb ub junk_lb junk_ub : Fin N → ℝ) :
    ((SamplerR.mk g lb ub).sample).1 =
        (((SamplerR.mk g junk_lb junk_ub).setBound lb ub).sample).1 ∧
      ((SamplerR.mk g lb ub).sample).2 =
        (((SamplerR.mk g junk_lb junk_ub).setBound lb ub).sample).2 :=
  ⟨rfl, rfl⟩

end fcl

end
